import Mathlib

/-!
Verification of the analytics helpers of the disease-outbreak-detection
frontend.

Numbers that are JavaScript floating-point values in the source are modelled
as exact rationals.  The convex-hull code uses only addition, subtraction,
multiplication and order comparisons on coordinates, so it is embedded over
an arbitrary linear ordered commutative ring `R`; the rational instance
`R = ℚ` is the float model, and the integer instance `R = ℤ` is used to
evaluate the functions on concrete inputs.
-/

namespace OutbreakDetection

/-- Geographic point, from src/frontend/utils/convexHull.ts (interface Point). -/
structure Point (R : Type) where
  latitude : R
  longitude : R
deriving DecidableEq

/-- Maps a point to the [lat, lon] tuple produced by getConvexHull. -/
def toPair {R : Type} (p : Point R) : R × R := (p.latitude, p.longitude)

/-- Cross product of vectors OA and OB, from convexHull.ts (const cross). -/
def cross {R : Type} [LinearOrderedCommRing R] (o a b : Point R) : R :=
  (a.longitude - o.longitude) * (b.latitude - o.latitude)
    - (a.latitude - o.latitude) * (b.longitude - o.longitude)

/-- The comparator used by the sort in getConvexHull: ascending longitude,
ties broken by ascending latitude. -/
def ptLe {R : Type} [LinearOrderedCommRing R] (a b : Point R) : Prop :=
  a.longitude < b.longitude ∨ (a.longitude = b.longitude ∧ a.latitude ≤ b.latitude)

instance {R : Type} [LinearOrderedCommRing R] : DecidableRel (ptLe (R := R)) :=
  fun a b => by
    unfold ptLe
    infer_instance

instance {R : Type} [LinearOrderedCommRing R] : IsTotal (Point R) ptLe where
  total a b := by
    unfold ptLe
    rcases lt_trichotomy a.longitude b.longitude with h | h | h
    · exact Or.inl (Or.inl h)
    · rcases le_total a.latitude b.latitude with h2 | h2
      · exact Or.inl (Or.inr ⟨h, h2⟩)
      · exact Or.inr (Or.inr ⟨h.symm, h2⟩)
    · exact Or.inr (Or.inl h)

instance {R : Type} [LinearOrderedCommRing R] : IsTrans (Point R) ptLe where
  trans a b c hab hbc := by
    unfold ptLe at *
    rcases hab with h1 | ⟨h1, h1l⟩
    · rcases hbc with h2 | ⟨h2, h2l⟩
      · exact Or.inl (h1.trans h2)
      · exact Or.inl (h2 ▸ h1)
    · rcases hbc with h2 | ⟨h2, h2l⟩
      · exact Or.inl (h1 ▸ h2)
      · exact Or.inr ⟨h1.trans h2, h1l.trans h2l⟩

instance {R : Type} [LinearOrderedCommRing R] : IsAntisymm (Point R) ptLe where
  antisymm a b hab hba := by
    unfold ptLe at *
    rcases hab with h1 | ⟨h1, h1l⟩
    · rcases hba with h2 | ⟨h2, h2l⟩
      · exact absurd h1 (not_lt.mpr h2.le)
      · exact absurd h1 (not_lt.mpr h2.le)
    · rcases hba with h2 | ⟨h2, h2l⟩
      · exact absurd h2 (not_lt.mpr h1.le)
      · cases a
        cases b
        simp only [Point.mk.injEq]
        exact ⟨le_antisymm h1l h2l, h1⟩

/-- One while-loop of the monotone chain: starting from the stack `st`
(head = most recently pushed point), pop while the stack has at least two
points and the turn through the incoming point `p` is not a strict left
turn.  This is the `while (... cross(...) <= 0) pop()` loop of
getConvexHull. -/
def popWhile {R : Type} [LinearOrderedCommRing R] (p : Point R) :
    List (Point R) → List (Point R)
  | [] => []
  | top :: rest =>
    match rest with
    | [] => [top]
    | second :: _ =>
      if cross second top p ≤ 0 then popWhile p rest
      else top :: rest

/-- One half-hull pass of getConvexHull: fold the points into the stack,
popping non-left turns before each push.  The stack is kept head-first
(head = last element of the JavaScript array). -/
def buildHalf {R : Type} [LinearOrderedCommRing R] (st : List (Point R)) :
    List (Point R) → List (Point R)
  | [] => st
  | p :: ps => buildHalf (p :: popWhile p st) ps

/-- Monotone-chain convex hull, from src/frontend/utils/convexHull.ts
(getConvexHull).  Fewer than 3 points are returned unchanged; otherwise the
points are sorted by (longitude, latitude), the lower and upper chains are
built, the last pushed point of each chain is dropped, and the two chains
are concatenated.  Stacks are modelled head-first, so the JavaScript array
`lower` is `(buildHalf [] sorted).reverse` and `lower.pop()` removes the
head of the Lean list. -/
def getConvexHull {R : Type} [LinearOrderedCommRing R] (points : List (Point R)) :
    List (R × R) :=
  if points.length < 3 then points.map toPair
  else
    let sorted := List.insertionSort ptLe points
    let lower := buildHalf [] sorted
    let upper := buildHalf [] sorted.reverse
    (lower.tail.reverse ++ upper.tail.reverse).map toPair

/-- Pairwise collinearity of a list of points: every triple drawn from the
list has vanishing cross product. -/
def AllCollinear {R : Type} [LinearOrderedCommRing R] (pts : List (Point R)) : Prop :=
  ∀ o ∈ pts, ∀ a ∈ pts, ∀ b ∈ pts, cross o a b = 0

instance {R : Type} [LinearOrderedCommRing R] (pts : List (Point R)) :
    Decidable (AllCollinear pts) := by
  unfold AllCollinear
  infer_instance

/-- Per-cluster risk level, from RiskSidebar (src/unnamed/part_004):
the expression `cluster.members.length > 3 ? "High" : "Moderate"`. -/
def riskLevel (memberCount : ℕ) : String :=
  if memberCount > 3 then "High" else "Moderate"

/-- Per-hospital capacity stress level, from ClusterMap.tsx
(mergedFeatures): icu_utilization above 80 gives CRITICAL, otherwise above
50 gives Warning, otherwise the level stays Normal. -/
def stressLevel (icuUtilization : ℚ) : String :=
  if icuUtilization > 80 then "CRITICAL"
  else if icuUtilization > 50 then "Warning"
  else "Normal"

/-- The symptom-checker answer set, from SymptomChecker.tsx (useState). -/
structure Answers where
  fever : Bool
  cough : Bool
  breathing : Bool
  sore_throat : Bool
  body_aches : Bool
  contact : Bool
deriving DecidableEq

/-- Symptom risk tiering, from SymptomChecker.tsx (calculateRisk). -/
def calculateRisk (a : Answers) : String :=
  if (a.fever && a.breathing) || (a.contact && a.fever) then "High"
  else if a.fever && (a.cough || a.sore_throat || a.body_aches) then "Moderate"
  else if a.fever || a.cough || a.contact || a.sore_throat then "Low"
  else "None"

/-- One day of a simulation curve as consumed by runSimulation in
SimulatorPanel (src/unnamed/part_004): the fields `day` and `infected` that
the chart formatting reads. -/
structure SimPoint where
  day : ℕ
  infected : ℚ
deriving DecidableEq

/-- One formatted Recharts row built by runSimulation. -/
structure ChartRow where
  day : String
  baseline : ℚ
  projected : ℚ
deriving DecidableEq

/-- The per-day chart formatting in runSimulation (src/unnamed/part_004):
`result.baseline.map((b, i) => ({day, baseline: b.infected, projected:
result.projected[i].infected}))`.  Indexing `projected[i]` out of range is a
crash in JavaScript (`undefined.infected` throws), modelled as `none`. -/
def formatSimulation (baseline projected : List SimPoint) : Option (List ChartRow) :=
  (List.range baseline.length).mapM fun i =>
    match baseline[i]?, projected[i]? with
    | some b, some p =>
      some { day := "Day " ++ toString b.day
             baseline := b.infected
             projected := p.infected }
    | _, _ => none

/-- The body runSimulation sends to /api/simulation/predict
(src/unnamed/part_004): `mask_compliance: maskCompliance / 100,
lockdown_level: lockdownLevel / 100`, where the two slider states are
integers between 0 and 100 (range inputs with min 0, max 100). -/
def simulationRequest (maskCompliance lockdownLevel : ℕ) : ℚ × ℚ :=
  ((maskCompliance : ℚ) / 100, (lockdownLevel : ℚ) / 100)

/-- SIR compartment state (susceptible, infected, recovered). -/
structure SIRState where
  s : ℚ
  i : ℚ
  r : ℚ
deriving DecidableEq

/-- Modelled from the spec: the backend intervention simulator (a Python
service reached through /api/simulation/predict) is not under src/, so the
discrete-time SIR update of spec section 4.4 is used: new S = S - β·S·I/N,
new I = I + β·S·I/N - γ·I, new R = R + γ·I, with unit time step. -/
def sirStep (beta gamma n : ℚ) (st : SIRState) : SIRState :=
  { s := st.s - beta * st.s * st.i / n
    i := st.i + beta * st.s * st.i / n - gamma * st.i
    r := st.r + gamma * st.i }

/-- Modelled from the spec: the simulation curve obtained by iterating
sirStep from the initial state, one entry per day. -/
def sirCurve (beta gamma n : ℚ) (st0 : SIRState) : ℕ → SIRState
  | 0 => st0
  | k + 1 => sirStep beta gamma n (sirCurve beta gamma n st0 k)

/-- Modelled from the spec: the effective transmission rate
`β_eff = β₀ · (1 - 0.5·mask_compliance) · (1 - 0.8·lockdown_level)` of spec
section 4.4. -/
def betaEff (beta0 mask lockdown : ℚ) : ℚ :=
  beta0 * (1 - 1 / 2 * mask) * (1 - 4 / 5 * lockdown)

/-- All compartments lie in [0, N] and they sum to N. -/
def SIRinRange (n : ℚ) (st : SIRState) : Prop :=
  0 ≤ st.s ∧ st.s ≤ n ∧ 0 ≤ st.i ∧ st.i ≤ n ∧ 0 ≤ st.r ∧ st.r ≤ n ∧
    st.s + st.i + st.r = n

/-! Helper lemmas about the monotone-chain loops. -/

variable {R : Type} [LinearOrderedCommRing R]

theorem popWhile_subset (p q : Point R) :
    ∀ st : List (Point R), q ∈ popWhile p st → q ∈ st := by
  intro st
  induction st with
  | nil => simp [popWhile]
  | cons top rest ih =>
    cases rest with
    | nil => simp [popWhile]
    | cons second r2 =>
      simp only [popWhile]
      split
      · intro h
        exact List.mem_cons_of_mem top (ih h)
      · exact fun h => h

theorem popWhile_ne_nil (p : Point R) :
    ∀ st : List (Point R), st ≠ [] → popWhile p st ≠ [] := by
  intro st
  induction st with
  | nil => exact fun h => absurd rfl h
  | cons top rest ih =>
    intro _
    cases rest with
    | nil => simp [popWhile]
    | cons second r2 =>
      simp only [popWhile]
      split
      · exact ih (by simp)
      · simp

theorem buildHalf_subset (q : Point R) :
    ∀ (ps st : List (Point R)), q ∈ buildHalf st ps → q ∈ st ∨ q ∈ ps := by
  intro ps
  induction ps with
  | nil => exact fun st h => Or.inl h
  | cons p ps ih =>
    intro st h
    rcases ih (p :: popWhile p st) h with h1 | h1
    · rcases List.mem_cons.mp h1 with h2 | h2
      · exact Or.inr (h2 ▸ List.mem_cons_self p ps)
      · exact Or.inl (popWhile_subset p q st h2)
    · exact Or.inr (List.mem_cons_of_mem p h1)

theorem buildHalf_length :
    ∀ (ps st : List (Point R)), 2 ≤ st.length → 2 ≤ (buildHalf st ps).length := by
  intro ps
  induction ps with
  | nil => exact fun st h => h
  | cons p ps ih =>
    intro st h
    have hne : st ≠ [] := by
      intro heq
      rw [heq] at h
      simp at h
    have hpop : popWhile p st ≠ [] := popWhile_ne_nil p st hne
    have : 2 ≤ (p :: popWhile p st).length := by
      have : 1 ≤ (popWhile p st).length := List.length_pos.mpr hpop
      simp only [List.length_cons]
      omega
    exact ih _ this

theorem getConvexHull_big (pts : List (Point R)) (h : ¬pts.length < 3) :
    getConvexHull pts =
      ((buildHalf [] (List.insertionSort ptLe pts)).tail.reverse ++
        (buildHalf [] (List.insertionSort ptLe pts).reverse).tail.reverse).map toPair := by
  simp only [getConvexHull]
  rw [if_neg h]

theorem buildHalf_cons_nil (a : Point R) (ps : List (Point R)) :
    buildHalf [] (a :: ps) = buildHalf [a] ps := by
  simp [buildHalf, popWhile]

theorem buildHalf_cons_one (a b : Point R) (ps : List (Point R)) :
    buildHalf [a] (b :: ps) = buildHalf [b, a] ps := by
  simp [buildHalf, popWhile]

theorem buildHalf_pair_collinear (S : List (Point R)) (hS : AllCollinear S) :
    ∀ (ps : List (Point R)) (a b : Point R), (∀ x ∈ ps, x ∈ S) → a ∈ S → b ∈ S →
      ∃ z, z ∈ S ∧ buildHalf [a, b] ps = [z, b] := by
  intro ps
  induction ps with
  | nil => exact fun a b _ ha _ => ⟨a, ha, rfl⟩
  | cons p ps ih =>
    intro a b hps ha hb
    have hp : p ∈ S := hps p (List.mem_cons_self p ps)
    have hcross : cross b a p = 0 := hS b hb a ha p hp
    have hstep : buildHalf [a, b] (p :: ps) = buildHalf [p, b] ps := by
      simp [buildHalf, popWhile, hcross]
    rcases ih p b (fun x hx => hps x (List.mem_cons_of_mem p hx)) hp hb with ⟨z, hz, heq⟩
    exact ⟨z, hz, hstep ▸ heq⟩

theorem mapM_option_isSome {α β : Type} (f : α → Option β) :
    ∀ l : List α, (∀ a ∈ l, (f a).isSome = true) → (l.mapM f).isSome = true := by
  intro l
  induction l with
  | nil => exact fun _ => rfl
  | cons a l ih =>
    intro h
    rw [List.mapM_cons]
    have h1 : (f a).isSome = true := h a (List.mem_cons_self a l)
    rcases Option.isSome_iff_exists.mp h1 with ⟨b, hb⟩
    have h2 := ih (fun x hx => h x (List.mem_cons_of_mem a hx))
    rcases Option.isSome_iff_exists.mp h2 with ⟨bs, hbs⟩
    have hbs2 : List.mapM.loop f l [] = some bs := hbs
    simp [hb, hbs, hbs2]

/-! Claim theorems. -/

/-- C1 counterexample: a cluster of exactly 3 members is assigned Moderate,
not High, because RiskSidebar tests strict excess (members.length > 3). -/
theorem riskLevel_three_members : riskLevel 3 = "Moderate" ∧ riskLevel 3 ≠ "High" := by
  decide

/-- C1 (amended): a cluster is High exactly when its member count strictly
exceeds 3; a count of 3 or fewer (including exactly 3) is Moderate. -/
theorem riskLevel_size_threshold (memberCount : ℕ) :
    (3 < memberCount → riskLevel memberCount = "High") ∧
    (memberCount ≤ 3 → riskLevel memberCount = "Moderate") := by
  unfold riskLevel
  constructor
  · intro h
    rw [if_pos h]
  · intro h
    rw [if_neg (by omega)]

/-- C1 witness: the amended threshold rule evaluated at 4 and at 3. -/
theorem riskLevel_size_threshold_witness :
    riskLevel 4 = "High" ∧ riskLevel 3 = "Moderate" :=
  ⟨(riskLevel_size_threshold 4).1 (by decide), (riskLevel_size_threshold 3).2 (by decide)⟩

/-- C3 counterexample: an ICU utilization of exactly 50 yields Normal, not
the warning level, because the code tests icuUtil > 50 strictly (and the
warning string it produces is "Warning", not "WARNING"). -/
theorem stressLevel_at_fifty :
    stressLevel 50 = "Normal" ∧ stressLevel 50 ≠ "WARNING" ∧ stressLevel 50 ≠ "Warning" := by
  decide

/-- C3 (amended): utilization strictly above 80 yields CRITICAL, and
utilization strictly above 50 and at most 80 yields the warning level
(string "Warning"); exactly 50 falls outside the warning band. -/
theorem stressLevel_thresholds (icuUtilization : ℚ) :
    (80 < icuUtilization → stressLevel icuUtilization = "CRITICAL") ∧
    (50 < icuUtilization → icuUtilization ≤ 80 → stressLevel icuUtilization = "Warning") := by
  unfold stressLevel
  constructor
  · intro h
    rw [if_pos h]
  · intro h1 h2
    rw [if_neg (not_lt.mpr h2), if_pos h1]

/-- C3 witness: the threshold rule evaluated at 90 and at 60. -/
theorem stressLevel_thresholds_witness :
    stressLevel 90 = "CRITICAL" ∧ stressLevel 60 = "Warning" :=
  ⟨(stressLevel_thresholds 90).1 (by decide),
    (stressLevel_thresholds 60).2 (by decide) (by decide)⟩

/-- C5: for fewer than 3 input points, getConvexHull returns exactly the
input points, in input order, as [latitude, longitude] tuples. -/
theorem getConvexHull_small (R : Type) [LinearOrderedCommRing R]
    (pts : List (Point R)) (h : pts.length < 3) :
    getConvexHull pts = pts.map toPair := by
  unfold getConvexHull
  rw [if_pos h]

/-- C5 witness: the degenerate two-point boundary keeps input order. -/
theorem getConvexHull_small_witness :
    getConvexHull ([⟨3, 4⟩, ⟨1, 2⟩] : List (Point ℤ)) =
      ([⟨3, 4⟩, ⟨1, 2⟩] : List (Point ℤ)).map toPair :=
  getConvexHull_small ℤ [⟨3, 4⟩, ⟨1, 2⟩] (by decide)

/-- C9 counterexample: on fewer than 3 points getConvexHull echoes the
input in its original order, so swapping a two-point list changes the
output even though the lists are permutations of each other. -/
theorem getConvexHull_perm_two_points :
    ([⟨0, 0⟩, ⟨1, 1⟩] : List (Point ℤ)).Perm [⟨1, 1⟩, ⟨0, 0⟩] ∧
    getConvexHull ([⟨0, 0⟩, ⟨1, 1⟩] : List (Point ℤ)) ≠
      getConvexHull ([⟨1, 1⟩, ⟨0, 0⟩] : List (Point ℤ)) := by
  decide

/-- C9 (amended): getConvexHull is permutation-invariant on every list of
at least 3 points (where the sort runs); lists of fewer than 3 points are
returned in input order and are not invariant. -/
theorem getConvexHull_permInvariant (R : Type) [LinearOrderedCommRing R]
    (l1 l2 : List (Point R)) (hp : l1.Perm l2) (h3 : 3 ≤ l1.length) :
    getConvexHull l1 = getConvexHull l2 := by
  have h3b : 3 ≤ l2.length := hp.length_eq ▸ h3
  have hs : List.insertionSort ptLe l1 = List.insertionSort ptLe l2 :=
    List.eq_of_perm_of_sorted
      ((List.perm_insertionSort ptLe l1).trans
        (hp.trans (List.perm_insertionSort ptLe l2).symm))
      (List.sorted_insertionSort ptLe l1) (List.sorted_insertionSort ptLe l2)
  rw [getConvexHull_big l1 (not_lt.mpr h3), getConvexHull_big l2 (not_lt.mpr h3b), hs]

/-- C9 witness: two permuted three-point lists get the same hull. -/
theorem getConvexHull_permInvariant_witness :
    getConvexHull ([⟨0, 0⟩, ⟨1, 2⟩, ⟨3, 1⟩] : List (Point ℤ)) =
      getConvexHull ([⟨1, 2⟩, ⟨0, 0⟩, ⟨3, 1⟩] : List (Point ℤ)) :=
  getConvexHull_permInvariant ℤ _ _ (by decide) (by decide)

/-- C2 counterexample: three pairwise-collinear points are collapsed to the
two extreme points, not returned whole, because the pop condition
cross <= 0 also removes collinear interior points. -/
theorem getConvexHull_collinear_three_points :
    AllCollinear ([⟨0, 0⟩, ⟨1, 1⟩, ⟨2, 2⟩] : List (Point ℤ)) ∧
    getConvexHull ([⟨0, 0⟩, ⟨1, 1⟩, ⟨2, 2⟩] : List (Point ℤ)) ≠
      ([⟨0, 0⟩, ⟨1, 1⟩, ⟨2, 2⟩] : List (Point ℤ)).map toPair ∧
    getConvexHull ([⟨0, 0⟩, ⟨1, 1⟩, ⟨2, 2⟩] : List (Point ℤ)) = [(0, 0), (2, 2)] := by
  decide

/-- C2 (amended): on 3 or more pairwise-collinear points getConvexHull does
not crash and degenerates gracefully, returning exactly two boundary points
drawn from the input (the extremes of the sorted order), rather than the
whole input list. -/
theorem getConvexHull_collinear (R : Type) [LinearOrderedCommRing R]
    (pts : List (Point R)) (h3 : 3 ≤ pts.length) (hc : AllCollinear pts) :
    ∃ p q, p ∈ pts ∧ q ∈ pts ∧ getConvexHull pts = [toPair p, toPair q] := by
  have hperm := List.perm_insertionSort ptLe pts
  have hmemS : ∀ x ∈ List.insertionSort ptLe pts, x ∈ pts :=
    fun x hx => (hperm.mem_iff).mp hx
  have hlen : 3 ≤ (List.insertionSort ptLe pts).length := by
    rw [hperm.length_eq]
    exact h3
  obtain ⟨s1, t1, h1⟩ := List.exists_cons_of_ne_nil
    (l := List.insertionSort ptLe pts) (by
      intro h
      rw [h] at hlen
      simp at hlen)
  obtain ⟨s2, t2, h2⟩ := List.exists_cons_of_ne_nil (l := t1) (by
    intro h
    rw [h1, h] at hlen
    simp at hlen)
  have hs1 : s1 ∈ pts := hmemS s1 (by rw [h1]; exact List.mem_cons_self _ _)
  have hs2 : s2 ∈ pts := hmemS s2 (by
    rw [h1, h2]
    exact List.mem_cons_of_mem _ (List.mem_cons_self _ _))
  have ht2 : ∀ x ∈ t2, x ∈ pts := fun x hx => hmemS x (by
    rw [h1, h2]
    exact List.mem_cons_of_mem _ (List.mem_cons_of_mem _ hx))
  obtain ⟨z1, hz1, hlow⟩ := buildHalf_pair_collinear pts hc t2 s2 s1 ht2 hs2 hs1
  have hlower : buildHalf [] (List.insertionSort ptLe pts) = [z1, s1] := by
    rw [h1, buildHalf_cons_nil, h2, buildHalf_cons_one, hlow]
  have hrlen : 3 ≤ (List.insertionSort ptLe pts).reverse.length := by
    rw [List.length_reverse]
    exact hlen
  obtain ⟨r1, u1, hr1⟩ := List.exists_cons_of_ne_nil
    (l := (List.insertionSort ptLe pts).reverse) (by
      intro h
      rw [h] at hrlen
      simp at hrlen)
  obtain ⟨r2, u2, hr2⟩ := List.exists_cons_of_ne_nil (l := u1) (by
    intro h
    rw [hr1, h] at hrlen
    simp at hrlen)
  have hmemR : ∀ x ∈ (List.insertionSort ptLe pts).reverse, x ∈ pts :=
    fun x hx => hmemS x (List.mem_reverse.mp hx)
  have hr1m : r1 ∈ pts := hmemR r1 (by rw [hr1]; exact List.mem_cons_self _ _)
  have hr2m : r2 ∈ pts := hmemR r2 (by
    rw [hr1, hr2]
    exact List.mem_cons_of_mem _ (List.mem_cons_self _ _))
  have hu2 : ∀ x ∈ u2, x ∈ pts := fun x hx => hmemR x (by
    rw [hr1, hr2]
    exact List.mem_cons_of_mem _ (List.mem_cons_of_mem _ hx))
  obtain ⟨z2, hz2, hup⟩ := buildHalf_pair_collinear pts hc u2 r2 r1 hu2 hr2m hr1m
  have hupper : buildHalf [] (List.insertionSort ptLe pts).reverse = [z2, r1] := by
    rw [hr1, buildHalf_cons_nil, hr2, buildHalf_cons_one, hup]
  refine ⟨s1, r1, hs1, hr1m, ?_⟩
  rw [getConvexHull_big pts (not_lt.mpr h3), hlower, hupper]
  simp [toPair]

/-- C2 witness: the amended statement evaluated on a concrete collinear
triple. -/
theorem getConvexHull_collinear_witness :
    ∃ p q, p ∈ ([⟨0, 0⟩, ⟨1, 1⟩, ⟨2, 2⟩] : List (Point ℤ)) ∧
      q ∈ ([⟨0, 0⟩, ⟨1, 1⟩, ⟨2, 2⟩] : List (Point ℤ)) ∧
      getConvexHull ([⟨0, 0⟩, ⟨1, 1⟩, ⟨2, 2⟩] : List (Point ℤ)) = [toPair p, toPair q] :=
  getConvexHull_collinear ℤ _ (by decide) (by decide)

/-- C10: calculateRisk only ever returns one of High, Moderate, Low, None;
and difficulty breathing alone yields None, because breathing is absent
from the symptom list of the Low tier. -/
theorem calculateRisk_tiers (fever cough breathing sore_throat body_aches contact : Bool) :
    (calculateRisk ⟨fever, cough, breathing, sore_throat, body_aches, contact⟩ = "High" ∨
      calculateRisk ⟨fever, cough, breathing, sore_throat, body_aches, contact⟩ = "Moderate" ∨
      calculateRisk ⟨fever, cough, breathing, sore_throat, body_aches, contact⟩ = "Low" ∨
      calculateRisk ⟨fever, cough, breathing, sore_throat, body_aches, contact⟩ = "None") ∧
    calculateRisk ⟨false, false, true, false, false, false⟩ = "None" := by
  revert fever cough breathing sore_throat body_aches contact
  decide

/-- C4: on every non-empty input getConvexHull returns a non-empty boundary
whose points are all drawn from the input (never synthesized). -/
theorem getConvexHull_members (R : Type) [LinearOrderedCommRing R]
    (pts : List (Point R)) (hne : pts ≠ []) :
    getConvexHull pts ≠ [] ∧ ∀ q ∈ getConvexHull pts, ∃ p ∈ pts, q = toPair p := by
  by_cases h : pts.length < 3
  · unfold getConvexHull
    rw [if_pos h]
    constructor
    · simpa using hne
    · intro q hq
      rcases List.mem_map.mp hq with ⟨p, hp, hpe⟩
      exact ⟨p, hp, hpe.symm⟩
  · have hperm := List.perm_insertionSort ptLe pts
    have hlen : 3 ≤ (List.insertionSort ptLe pts).length := by
      rw [hperm.length_eq]
      exact not_lt.mp h
    obtain ⟨s1, t1, h1⟩ := List.exists_cons_of_ne_nil
      (l := List.insertionSort ptLe pts) (by
        intro hh
        rw [hh] at hlen
        simp at hlen)
    obtain ⟨s2, t2, h2⟩ := List.exists_cons_of_ne_nil (l := t1) (by
      intro hh
      rw [h1, hh] at hlen
      simp at hlen)
    have hlow2 : 2 ≤ (buildHalf [] (List.insertionSort ptLe pts)).length := by
      rw [h1, buildHalf_cons_nil, h2, buildHalf_cons_one]
      exact buildHalf_length t2 [s2, s1] (by simp)
    rw [getConvexHull_big pts h]
    constructor
    · intro hempty
      rw [List.map_eq_nil_iff] at hempty
      rcases List.append_eq_nil.mp hempty with ⟨ha, _⟩
      rw [List.reverse_eq_nil_iff] at ha
      have := List.length_tail (buildHalf [] (List.insertionSort ptLe pts))
      rw [ha] at this
      simp at this
      omega
    · intro q hq
      rcases List.mem_map.mp hq with ⟨x, hx, hxe⟩
      rcases List.mem_append.mp hx with hx1 | hx1
      · have hx3 : x ∈ buildHalf [] (List.insertionSort ptLe pts) :=
          List.mem_of_mem_tail (List.mem_reverse.mp hx1)
        rcases buildHalf_subset x (List.insertionSort ptLe pts) [] hx3 with h4 | h4
        · simp at h4
        · exact ⟨x, (hperm.mem_iff).mp h4, hxe.symm⟩
      · have hx3 : x ∈ buildHalf [] (List.insertionSort ptLe pts).reverse :=
          List.mem_of_mem_tail (List.mem_reverse.mp hx1)
        rcases buildHalf_subset x (List.insertionSort ptLe pts).reverse [] hx3 with h4 | h4
        · simp at h4
        · exact ⟨x, (hperm.mem_iff).mp (List.mem_reverse.mp h4), hxe.symm⟩

/-- C4 witness: a concrete three-point input has a non-empty boundary of
input points. -/
theorem getConvexHull_members_witness :
    getConvexHull ([⟨0, 0⟩, ⟨1, 2⟩, ⟨3, 1⟩] : List (Point ℤ)) ≠ [] ∧
      ∀ q ∈ getConvexHull ([⟨0, 0⟩, ⟨1, 2⟩, ⟨3, 1⟩] : List (Point ℤ)),
        ∃ p ∈ ([⟨0, 0⟩, ⟨1, 2⟩, ⟨3, 1⟩] : List (Point ℤ)), q = toPair p :=
  getConvexHull_members ℤ _ (by decide)

/-- C6: when the two curves have equal length, the per-day chart formatting
of runSimulation reaches no out-of-range index (the formatting succeeds);
and with projected shorter than baseline the out-of-range access is
reachable (the formatting crashes, modelled as none). -/
theorem formatSimulation_safe :
    (∀ baseline projected : List SimPoint, baseline.length = projected.length →
      (formatSimulation baseline projected).isSome = true) ∧
    formatSimulation ([⟨1, 5⟩] : List SimPoint) [] = none := by
  constructor
  · intro baseline projected h
    unfold formatSimulation
    apply mapM_option_isSome
    intro i hi
    have hib : i < baseline.length := List.mem_range.mp hi
    have hip : i < projected.length := h ▸ hib
    rw [List.getElem?_eq_getElem hib, List.getElem?_eq_getElem hip]
    rfl
  · rfl

/-- C6 witness: the equal-length half of the claim at a concrete one-day
response. -/
theorem formatSimulation_safe_witness :
    (formatSimulation ([⟨1, 5⟩] : List SimPoint) ([⟨1, 4⟩] : List SimPoint)).isSome = true :=
  formatSimulation_safe.1 _ _ rfl

/-- C7: for slider integers in [0, 100], both values sent by runSimulation
lie in the closed interval [0, 1]. -/
theorem simulationRequest_unit_interval (maskCompliance lockdownLevel : ℕ)
    (hm : maskCompliance ≤ 100) (hl : lockdownLevel ≤ 100) :
    0 ≤ (simulationRequest maskCompliance lockdownLevel).1 ∧
      (simulationRequest maskCompliance lockdownLevel).1 ≤ 1 ∧
      0 ≤ (simulationRequest maskCompliance lockdownLevel).2 ∧
      (simulationRequest maskCompliance lockdownLevel).2 ≤ 1 := by
  unfold simulationRequest
  refine ⟨by positivity, ?_, by positivity, ?_⟩
  · rw [div_le_one (by norm_num)]
    exact_mod_cast hm
  · rw [div_le_one (by norm_num)]
    exact_mod_cast hl

/-- C7 witness: the request bounds at slider values 37 and 100. -/
theorem simulationRequest_unit_interval_witness :
    0 ≤ (simulationRequest 37 100).1 ∧ (simulationRequest 37 100).1 ≤ 1 ∧
      0 ≤ (simulationRequest 37 100).2 ∧ (simulationRequest 37 100).2 ≤ 1 :=
  simulationRequest_unit_interval 37 100 (by decide) (by decide)

/-! Helper lemmas for the SIR invariant. -/

theorem sirStep_preserves (beta gamma n : ℚ) (st : SIRState)
    (hn : 0 < n) (hb0 : 0 ≤ beta) (hb1 : beta ≤ 1) (hg0 : 0 ≤ gamma) (hg1 : gamma ≤ 1)
    (hs : 0 ≤ st.s) (hi : 0 ≤ st.i) (hr : 0 ≤ st.r)
    (hsum : st.s + st.i + st.r = n) :
    0 ≤ (sirStep beta gamma n st).s ∧ 0 ≤ (sirStep beta gamma n st).i ∧
      0 ≤ (sirStep beta gamma n st).r ∧
      (sirStep beta gamma n st).s + (sirStep beta gamma n st).i +
        (sirStep beta gamma n st).r = n := by
  simp only [sirStep]
  have hiN : st.i ≤ n := by nlinarith
  refine ⟨?_, ?_, ?_, ?_⟩
  · rw [sub_nonneg, div_le_iff₀ hn]
    nlinarith [mul_nonneg hs hi, mul_le_mul_of_nonneg_left hiN hs,
      mul_nonneg (sub_nonneg.mpr hb1) (mul_nonneg hs hi)]
  · have h1 : 0 ≤ st.i * (1 - gamma) := mul_nonneg hi (by linarith)
    have h2 : 0 ≤ beta * st.s * st.i / n := by positivity
    nlinarith
  · nlinarith [mul_nonneg hg0 hi]
  · linear_combination hsum

theorem sirCurve_inRange (beta gamma n : ℚ) (st0 : SIRState)
    (hn : 0 < n) (hb0 : 0 ≤ beta) (hb1 : beta ≤ 1) (hg0 : 0 ≤ gamma) (hg1 : gamma ≤ 1)
    (hs : 0 ≤ st0.s) (hi : 0 ≤ st0.i) (hr : 0 ≤ st0.r)
    (hsum : st0.s + st0.i + st0.r = n) :
    ∀ k : ℕ, SIRinRange n (sirCurve beta gamma n st0 k) := by
  intro k
  induction k with
  | zero =>
    simp only [sirCurve, SIRinRange]
    exact ⟨hs, by linarith, hi, by linarith, hr, by linarith, hsum⟩
  | succ k ih =>
    simp only [SIRinRange] at ih
    obtain ⟨ihs, _, ihi, _, ihr, _, ihsum⟩ := ih
    have hstep := sirStep_preserves beta gamma n (sirCurve beta gamma n st0 k)
      hn hb0 hb1 hg0 hg1 ihs ihi ihr ihsum
    obtain ⟨h1, h2, h3, h4⟩ := hstep
    simp only [sirCurve, SIRinRange]
    exact ⟨h1, by linarith, h2, by linarith, h3, by linarith, h4⟩

theorem betaEff_unit (beta0 mask lockdown : ℚ)
    (hb0 : 0 ≤ beta0) (hb1 : beta0 ≤ 1) (hm0 : 0 ≤ mask) (hm1 : mask ≤ 1)
    (hl0 : 0 ≤ lockdown) (hl1 : lockdown ≤ 1) :
    0 ≤ betaEff beta0 mask lockdown ∧ betaEff beta0 mask lockdown ≤ 1 := by
  unfold betaEff
  have h1 : 0 ≤ 1 - 1 / 2 * mask := by linarith
  have h2 : 0 ≤ 1 - 4 / 5 * lockdown := by linarith
  have h3 : 1 - 1 / 2 * mask ≤ 1 := by linarith
  have h4 : 1 - 4 / 5 * lockdown ≤ 1 := by linarith
  constructor
  · exact mul_nonneg (mul_nonneg hb0 h1) h2
  · nlinarith [mul_nonneg (mul_nonneg hb0 h1) h2, mul_nonneg hb0 h1]

/-- C8: at every step of both the baseline curve (parameters 0) and the
intervention-adjusted curve, each SIR compartment stays within [0, N] and
S + I + R equals the population N exactly (hence within any floating
tolerance), given rates in [0, 1] and a consistent initial state. -/
theorem sir_compartment_invariant (beta0 gamma n mask lockdown : ℚ) (st0 : SIRState)
    (hn : 0 < n) (hb0 : 0 ≤ beta0) (hb1 : beta0 ≤ 1)
    (hg0 : 0 ≤ gamma) (hg1 : gamma ≤ 1)
    (hm0 : 0 ≤ mask) (hm1 : mask ≤ 1) (hl0 : 0 ≤ lockdown) (hl1 : lockdown ≤ 1)
    (hs : 0 ≤ st0.s) (hi : 0 ≤ st0.i) (hr : 0 ≤ st0.r)
    (hsum : st0.s + st0.i + st0.r = n) (k : ℕ) :
    SIRinRange n (sirCurve (betaEff beta0 0 0) gamma n st0 k) ∧
    SIRinRange n (sirCurve (betaEff beta0 mask lockdown) gamma n st0 k) := by
  have hbase := betaEff_unit beta0 0 0 hb0 hb1 le_rfl zero_le_one le_rfl zero_le_one
  have hproj := betaEff_unit beta0 mask lockdown hb0 hb1 hm0 hm1 hl0 hl1
  exact ⟨sirCurve_inRange _ gamma n st0 hn hbase.1 hbase.2 hg0 hg1 hs hi hr hsum k,
    sirCurve_inRange _ gamma n st0 hn hproj.1 hproj.2 hg0 hg1 hs hi hr hsum k⟩

/-- C8 witness: the invariant at a concrete population of 1000 with 10
initially infected, full rates, after 3 steps. -/
theorem sir_compartment_invariant_witness :
    SIRinRange 1000 (sirCurve (betaEff 1 0 0) 1 1000 ⟨990, 10, 0⟩ 3) ∧
    SIRinRange 1000 (sirCurve (betaEff 1 1 1) 1 1000 ⟨990, 10, 0⟩ 3) :=
  sir_compartment_invariant 1 1 1000 1 1 ⟨990, 10, 0⟩ (by decide) (by decide)
    (by decide) (by decide) (by decide) (by decide) (by decide) (by decide) (by decide)
    (by decide) (by decide) (by decide) (by norm_num) 3

end OutbreakDetection
